import Mathlib

/-!
Verification of the YANG Revision Tree registry (src/yang_revision_tree.py).

The Python source is shallowly embedded:

* `ModRec` models the `modinfo` dictionary of a fully populated `Module`
  object (one field per CSV column; field `rev` is the *declared*
  `modulerevision` entry, field `ns` is `namespace`, field `pfx` is
  `prefix` — those two source names are not usable as Lean identifiers).
* `Library` models the mutable state of the `Library` class:
  `mods`, `namespaces`, `prefixes` and `logs`.
* Python dictionaries preserve insertion order, so every dictionary is
  modelled as an insertion-ordered association list: `aset` replaces a
  present key in place and appends an absent key at the end, exactly the
  semantics of `d[k] = v`; `alookup` is `d.get(k)`.
* `addModule` is the body of the `for mod in mods:` loop of
  `Library.add_modules`; `add_modules` folds it over the batch.
-/

/-- `d.get(k)` on an insertion-ordered dictionary. -/
def alookup {α : Type} : List (String × α) → String → Option α
  | [], _ => none
  | (k2, v) :: rest, k => if k2 = k then some v else alookup rest k

/-- `d[k] = v` on an insertion-ordered dictionary: replace in place, or append at the end. -/
def aset {α : Type} : List (String × α) → String → α → List (String × α)
  | [], k, v => [(k, v)]
  | (k2, w) :: rest, k, v =>
    if k2 = k then (k2, v) :: rest else (k2, w) :: aset rest k v

/-- `del d[k]` / `Path.unlink`: remove the entries stored under `k`. -/
def adelete {α : Type} : List (String × α) → String → List (String × α)
  | [], _ => []
  | (k2, v) :: rest, k =>
    if k2 = k then adelete rest k else (k2, v) :: adelete rest k

/-- The `'undefined'` sentinel used by the source for revisions and namespaces. -/
def undef : String := "undefined"

/-- The annotation-module naming suffix tested by `mod.modulename.endswith("-ann")`. -/
def annSuffix : String := "-ann"

/-- The `'submodule'` kind tested by `mod.kind != 'submodule'`. -/
def submoduleKind : String := "submodule"

/-- One fully populated `Module.modinfo`.  Field ↔ CSV column:
`name` = `modulename`, `rev` = raw `modulerevision`, `rel` = `release`,
`csum` = `checksum`, `ns` = `namespace`, `pfx` = `prefix`,
`kind` = `kind`, `fname` = `filename`. -/
structure ModRec where
  name : String
  rev : String
  rel : String
  csum : String
  ns : String
  pfx : String
  kind : String
  fname : String
deriving DecidableEq

/-- The `Module.modulerevision` property: the declared revision, except that
the `'undefined'` sentinel is replaced by the checksum (the *effective*
revision used as the registry key). -/
def ModRec.modulerevision (m : ModRec) : String :=
  if m.rev = undef then m.csum else m.rev

/-- `Module.get_row`: the eight CSV column values, in `csv_fieldnames` order
(raw `modinfo` values — the declared revision, not the effective one). -/
def get_row (m : ModRec) : List String :=
  [m.name, m.rev, m.rel, m.csum, m.ns, m.pfx, m.kind, m.fname]

-- The issue-code constants of class `Library` (source names `COLL_PREFIX`
-- and `DIFF_PREFIX` are shortened to `COLL_PFX` / `DIFF_PFX`).

def NEW_MODULE : Nat := 0
def NEW_REVISION : Nat := 1
def KNOWN_REVISION : Nat := 2
def ERROR_BASE : Nat := 3
def COLL_PFX : Nat := 4
def COLL_NAMESPACE : Nat := 5
def DIFF_PFX : Nat := 6
def DIFF_NAMESPACE : Nat := 7
def DIFF_CHECKSUM : Nat := 8

/-- One `ConflictLog` entry: `(issue_code, mods)` as appended by
`log_error` / `log_added`. -/
def LogEntry : Type := Nat × List ModRec

/-- The mutable state of a `Library` object: `self.mods` (module name →
insertion-ordered map from effective revision to record), `self.namespaces`
and `self.prefixes` (first-seen owner indices), and `self.logs`. -/
structure Library where
  mods : List (String × List (String × ModRec))
  namespaces : List (String × ModRec)
  prefixes : List (String × ModRec)
  logs : List (Nat × List ModRec)
deriving DecidableEq

/-- `Library.__init__`: all maps and the log start empty. -/
def emptyLibrary : Library :=
  { mods := [], namespaces := [], prefixes := [], logs := [] }

/-- The prefix stage of the new-module branch of `Library.add_modules`,
entered right after `self.namespaces[mod.namespace] = mod`:

    if self.prefixes.get(mod.prefix) and not mod.modulename.endswith("-ann"):
      self.log_error(Library.COLL_PREFIX, [self.prefixes.get(mod.prefix), mod])
      continue
    self.prefixes[mod.prefix] = mod
    self.log_added(Library.NEW_MODULE, [mod])

(`Module` objects are always truthy, so `get` is a presence test). -/
def newModPfxStage (lib : Library) (m : ModRec) : Library :=
  match alookup lib.prefixes m.pfx with
  | some owner =>
    if m.name.endsWith annSuffix = false then
      { lib with logs := lib.logs ++ [(COLL_PFX, [owner, m])] }
    else
      { lib with prefixes := aset lib.prefixes m.pfx m,
                 logs := lib.logs ++ [(NEW_MODULE, [m])] }
  | none =>
    { lib with prefixes := aset lib.prefixes m.pfx m,
               logs := lib.logs ++ [(NEW_MODULE, [m])] }

/-- The body of the `for mod in mods:` loop of `Library.add_modules`,
processing one record against the current state.  The three branches are
the source's new-module / new-revision / known-revision split.  In the
new-revision branch `get_module(name, ANY_REVISION)` is
`list(self.mods[name].keys())[0]`, i.e. the head of the insertion-ordered
revision map (taken before the insertion, as in the source; the source
would raise `IndexError` on an empty revision map — unreachable, since
every stored revision map is created non-empty and never shrinks). -/
def addModule (lib : Library) (m : ModRec) : Library :=
  match alookup lib.mods m.name with
  | none =>
    -- New module
    let lib1 : Library :=
      { lib with mods := aset lib.mods m.name [(m.modulerevision, m)] }
    match alookup lib1.namespaces m.ns with
    | some owner =>
      if m.kind ≠ submoduleKind ∧ m.name.endsWith annSuffix = false then
        { lib1 with logs := lib1.logs ++ [(COLL_NAMESPACE, [owner, m])] }
      else
        newModPfxStage { lib1 with namespaces := aset lib1.namespaces m.ns m } m
    | none =>
      newModPfxStage { lib1 with namespaces := aset lib1.namespaces m.ns m } m
  | some revmap =>
    match alookup revmap m.modulerevision with
    | none =>
      -- Existing module, new revision
      let lib1 : Library :=
        { lib with mods := aset lib.mods m.name (aset revmap m.modulerevision m) }
      match revmap.head? with
      | none => lib1
      | some (_, libMod) =>
        if libMod.ns ≠ m.ns ∧ m.ns ≠ undef ∧ libMod.ns ≠ undef then
          { lib1 with logs := lib1.logs ++ [(DIFF_NAMESPACE, [libMod, m])] }
        else if libMod.pfx ≠ m.pfx then
          { lib1 with logs := lib1.logs ++ [(DIFF_PFX, [libMod, m])] }
        else lib1
    | some stored =>
      -- Existing module, existing revision
      if stored.csum ≠ m.csum then
        { lib with logs := lib.logs ++ [(DIFF_CHECKSUM, [stored, m])] }
      else lib

/-- `Library.add_modules`: process a batch of records in the order given. -/
def add_modules (lib : Library) (ms : List ModRec) : Library :=
  ms.foldl addModule lib

/-- The record stored under module name `n` and effective revision `r`. -/
def storedAt (lib : Library) (n r : String) : Option ModRec :=
  match alookup lib.mods n with
  | none => none
  | some revmap => alookup revmap r

/-- Well-formedness of the registry maps: no module name is listed twice,
and no revision map lists a revision twice (so at most one record occupies
any `(name, effective revision)` key). -/
def wfLib (lib : Library) : Prop :=
  (lib.mods.map Prod.fst).Nodup ∧ ∀ p ∈ lib.mods, (p.2.map Prod.fst).Nodup

/-!
## The snapshot (REVINFO CSV) codec

`write_out_new_results` writes with `csv.writer(csvfile, quoting=csv.QUOTE_MINIMAL)`
on a file opened with `newline=''` (excel dialect: delimiter `,`, quote `"`,
row terminator `"\r\n"`; a field is quoted iff it contains the delimiter, the
quote character or a line-terminator character, with inner quotes doubled, and
a record consisting of a single empty field is written as `""`).

`load_release` reads with `csv.DictReader(csvfile)` on a file opened *without*
`newline=''`, so Python's universal-newline translation rewrites `"\r\n"` and
lone `"\r"` to `"\n"` before the csv parser sees the text (`unlTranslate` below).
The parser itself is modelled as the character-level state machine `csvStep`,
which agrees with the Python csv reader on all well-formed (writer-produced)
inputs.  `DictReader` zips the header row with each data row
(`dict(zip(fieldnames, row))`), and each resulting mapping is handed to
`Module.__init__` / `Module._populate`.
-/

-- The `modinfo` keys / CSV column names, as named constants.
def kwModulename : String := "modulename"
def kwModulerevision : String := "modulerevision"
def kwRelease : String := "release"
def kwChecksum : String := "checksum"
def kwNamespace : String := "namespace"
def kwPfx : String := "prefix"
def kwKind : String := "kind"
def kwFilename : String := "filename"

/-- The `Module.csv_fieldnames` header. -/
def csv_fieldnames : List String :=
  [kwModulename, kwModulerevision, kwRelease, kwChecksum,
   kwNamespace, kwPfx, kwKind, kwFilename]

/-- `QUOTE_MINIMAL`: a field is quoted iff it contains the delimiter, the
quote character, or a character of the `\r\n` line terminator. -/
def needsQuote (f : List Char) : Bool :=
  f.any (fun c => c = ',' || c = '"' || c = '\n' || c = '\r')

/-- Double every quote character (csv `doublequote=True`). -/
def escapeQuotes : List Char → List Char
  | [] => []
  | c :: rest =>
    if c = '"' then '"' :: '"' :: escapeQuotes rest else c :: escapeQuotes rest

/-- Encode one field under `QUOTE_MINIMAL`. -/
def encodeField (f : List Char) : List Char :=
  if needsQuote f then '"' :: (escapeQuotes f ++ ['"']) else f

/-- Encode the fields of one record, comma-separated (without the
single-empty-field special case, see `encodeRow`). -/
def encodeRowPlain : List (List Char) → List Char
  | [] => []
  | [f] => encodeField f
  | f :: rest => encodeField f ++ ',' :: encodeRowPlain rest

/-- Encode one record: the csv writer quotes a record consisting of a single
empty field (to keep it distinct from a blank line). -/
def encodeRow (fields : List (List Char)) : List Char :=
  if fields = [[]] then ['"', '"'] else encodeRowPlain fields

/-- Encode a whole file: every record is terminated by `"\r\n"`. -/
def encodeFile : List (List (List Char)) → List Char
  | [] => []
  | r :: rest => encodeRow r ++ '\r' :: '\n' :: encodeFile rest

/-- The file text written for a snapshot: the `csv_fieldnames` header row
followed by `Module.get_row(mod)` for each record, in order. -/
def writeSnapshot (mods : List ModRec) : List Char :=
  encodeFile ((csv_fieldnames :: mods.map get_row).map (List.map String.data))

/-- Python universal-newline translation (a file opened without `newline=''`):
`"\r\n"` and lone `"\r"` both become `"\n"`. -/
def unlTranslate : List Char → List Char
  | [] => []
  | [c] => if c = '\r' then ['\n'] else [c]
  | c :: c2 :: rest =>
    if c = '\r' then
      if c2 = '\n' then '\n' :: unlTranslate rest
      else '\n' :: unlTranslate (c2 :: rest)
    else c :: unlTranslate (c2 :: rest)

/-- Parser modes of the csv reading state machine. -/
inductive CsvMode where
  | lineStart
  | fieldStart
  | inField
  | inQuoted
  | afterQuoted
deriving DecidableEq

/-- Parser accumulator: completed rows, completed fields of the current row,
and the characters of the current field, all in order. -/
structure CsvAcc where
  rows : List (List (List Char))
  row : List (List Char)
  field : List Char
deriving DecidableEq

/-- One step of the csv reader at the start of a field (also used at the
start of a line for every character other than a bare newline). -/
def csvStepField (acc : CsvAcc) (c : Char) : CsvAcc × CsvMode :=
  if c = '"' then (acc, CsvMode.inQuoted)
  else if c = ',' then ({ acc with row := acc.row ++ [[]] }, CsvMode.fieldStart)
  else if c = '\n' then
    ({ acc with rows := acc.rows ++ [acc.row ++ [[]]], row := [], field := [] },
      CsvMode.lineStart)
  else ({ acc with field := [c] }, CsvMode.inField)

/-- One step of the csv reading state machine. -/
def csvStep (s : CsvAcc × CsvMode) (c : Char) : CsvAcc × CsvMode :=
  match s with
  | (acc, CsvMode.lineStart) =>
    if c = '\n' then ({ acc with rows := acc.rows ++ [[]] }, CsvMode.lineStart)
    else csvStepField acc c
  | (acc, CsvMode.fieldStart) => csvStepField acc c
  | (acc, CsvMode.inField) =>
    if c = ',' then
      ({ acc with row := acc.row ++ [acc.field], field := [] }, CsvMode.fieldStart)
    else if c = '\n' then
      ({ acc with rows := acc.rows ++ [acc.row ++ [acc.field]], row := [], field := [] },
        CsvMode.lineStart)
    else ({ acc with field := acc.field ++ [c] }, CsvMode.inField)
  | (acc, CsvMode.inQuoted) =>
    if c = '"' then (acc, CsvMode.afterQuoted)
    else ({ acc with field := acc.field ++ [c] }, CsvMode.inQuoted)
  | (acc, CsvMode.afterQuoted) =>
    if c = '"' then ({ acc with field := acc.field ++ ['"'] }, CsvMode.inQuoted)
    else if c = ',' then
      ({ acc with row := acc.row ++ [acc.field], field := [] }, CsvMode.fieldStart)
    else if c = '\n' then
      ({ acc with rows := acc.rows ++ [acc.row ++ [acc.field]], row := [], field := [] },
        CsvMode.lineStart)
    else ({ acc with field := acc.field ++ [c] }, CsvMode.inField)

/-- Flush the pending field/row at end of input. -/
def csvFinish : CsvAcc × CsvMode → List (List (List Char))
  | (acc, CsvMode.lineStart) => acc.rows
  | (acc, _) => acc.rows ++ [acc.row ++ [acc.field]]

/-- Parse csv text (after newline translation) into records of fields. -/
def parseCsv (cs : List Char) : List (List (List Char)) :=
  csvFinish (cs.foldl csvStep (⟨[], [], []⟩, CsvMode.lineStart))

/-- `csv.reader` rows of the snapshot file as read back through the
universal-newline translation, as `String` fields. -/
def readRows (cs : List Char) : List (List String) :=
  (parseCsv (unlTranslate cs)).map (List.map List.asString)

/-- `Library.load_release` + `Module._populate` up to the `modinfo`
dictionaries: `DictReader` takes the first row as the field names and zips
them with each subsequent row. -/
def load_release (cs : List Char) : List (List (String × String)) :=
  match readRows cs with
  | [] => []
  | header :: data => data.map (fun row => header.zip row)

/-- The `Module.modulename` property over a `modinfo` mapping: a missing
`'modulename'` key is caught (`except`) and replaced by `"foo"`. -/
def modulenameOf (mi : List (String × String)) : String :=
  match alookup mi kwModulename with
  | some v => v
  | none => "foo"

/-- Rebuild a fully populated record from a `modinfo` mapping through the
`Module` property accessors: `modulename` falls back to `"foo"`, every other
property raises `KeyError` when its key is missing (modelled as `none`). -/
def toModRec (mi : List (String × String)) : Option ModRec :=
  match alookup mi kwModulerevision, alookup mi kwRelease,
        alookup mi kwChecksum, alookup mi kwNamespace,
        alookup mi kwPfx, alookup mi kwKind, alookup mi kwFilename with
  | some rv, some rl, some cs, some nsp, some px, some kd, some fn =>
    some { name := modulenameOf mi, rev := rv, rel := rl, csum := cs,
           ns := nsp, pfx := px, kind := kd, fname := fn }
  | _, _, _, _, _, _, _ => none

/-!
## The snapshot store (`write_out_new_results`)

The file system is modelled as an association list from path to file text.
`get_output_libpath` builds `<library_dir>/REVINFO-<release>.csv`; if no
library directory is configured it returns `none`.  `write_out_new_results`
refuses (leaving the file system unchanged) when the output file already
exists; otherwise it opens the file for writing (creating it with the header
row and one row per record) and unlinks it again when no record rows were
written.
-/

def db_prefix : String := "REVINFO-"

def db_suffix : String := ".csv"

/-- `Library.get_output_libpath`. -/
def get_output_libpath (library_dir : Option String) (release_name : String) :
    Option String :=
  library_dir.map (fun d => d ++ "/" ++ db_prefix ++ release_name ++ db_suffix)

/-- `Library.write_out_new_results` acting on the modelled file system. -/
def write_out_new_results (fs : List (String × List Char))
    (library_dir : Option String) (release_name : String)
    (new_results : List ModRec) : List (String × List Char) :=
  match get_output_libpath library_dir release_name with
  | none => fs
  | some outfile =>
    if (alookup fs outfile).isSome then fs
    else
      let fs1 := aset fs outfile (writeSnapshot new_results)
      if new_results.length = 0 then adelete fs1 outfile else fs1

/-!
## Association-list lemmas
-/

theorem alookup_aset_self {α : Type} (l : List (String × α)) (k : String) (v : α) :
    alookup (aset l k v) k = some v := by
  induction l with
  | nil => simp [aset, alookup]
  | cons p rest ih =>
    obtain ⟨k2, w⟩ := p
    by_cases h : k2 = k
    · simp [aset, h, alookup]
    · simp [aset, h, alookup, ih]

theorem alookup_aset_ne {α : Type} (l : List (String × α)) (k k' : String) (v : α)
    (h : k' ≠ k) : alookup (aset l k v) k' = alookup l k' := by
  induction l with
  | nil => simp [aset, alookup, Ne.symm h]
  | cons p rest ih =>
    obtain ⟨k2, w⟩ := p
    by_cases h2 : k2 = k
    · subst h2
      simp [aset, alookup, Ne.symm h]
    · simp [aset, h2, alookup, ih]

theorem alookup_eq_none_iff {α : Type} (l : List (String × α)) (k : String) :
    alookup l k = none ↔ k ∉ l.map Prod.fst := by
  induction l with
  | nil => simp [alookup]
  | cons p rest ih =>
    obtain ⟨k2, w⟩ := p
    by_cases h : k2 = k
    · simp [alookup, h]
    · simp [alookup, h, ih, Ne.symm h]

theorem aset_keys_of_present {α : Type} (l : List (String × α)) (k : String) (v w : α)
    (h : alookup l k = some w) : (aset l k v).map Prod.fst = l.map Prod.fst := by
  induction l with
  | nil => simp [alookup] at h
  | cons p rest ih =>
    obtain ⟨k2, w2⟩ := p
    by_cases h2 : k2 = k
    · simp [aset, h2]
    · simp [alookup, h2] at h
      simp [aset, h2, ih h]

theorem aset_keys_of_absent {α : Type} (l : List (String × α)) (k : String) (v : α)
    (h : alookup l k = none) : (aset l k v).map Prod.fst = l.map Prod.fst ++ [k] := by
  induction l with
  | nil => simp [aset]
  | cons p rest ih =>
    obtain ⟨k2, w2⟩ := p
    by_cases h2 : k2 = k
    · simp [alookup, h2] at h
    · simp [alookup, h2] at h
      simp [aset, h2, ih h]

theorem aset_keys_nodup {α : Type} (l : List (String × α)) (k : String) (v : α)
    (h : (l.map Prod.fst).Nodup) : ((aset l k v).map Prod.fst).Nodup := by
  cases hl : alookup l k with
  | some w => rw [aset_keys_of_present l k v w hl]; exact h
  | none =>
    rw [aset_keys_of_absent l k v hl]
    refine List.nodup_append.mpr ⟨h, List.nodup_singleton k, ?_⟩
    intro a ha hb
    simp at hb
    subst hb
    exact (alookup_eq_none_iff l a).mp hl ha

theorem mem_aset {α : Type} (l : List (String × α)) (k : String) (v : α) (p : String × α)
    (h : p ∈ aset l k v) : p ∈ l ∨ p = (k, v) := by
  induction l with
  | nil => simp [aset] at h; simp [h]
  | cons q rest ih =>
    obtain ⟨k2, w2⟩ := q
    by_cases h2 : k2 = k
    · simp [aset, h2] at h
      rcases h with h | h
      · right; exact h
      · left; simp [h]
    · simp [aset, h2] at h
      rcases h with h | h
      · left; simp [h]
      · rcases ih h with h3 | h3
        · left; simp [h3]
        · right; exact h3

theorem alookup_adelete_self {α : Type} (l : List (String × α)) (k : String) :
    alookup (adelete l k) k = none := by
  induction l with
  | nil => simp [adelete, alookup]
  | cons p rest ih =>
    obtain ⟨k2, w⟩ := p
    by_cases h : k2 = k
    · simp [adelete, h, ih]
    · simp [adelete, h, alookup, ih]

/-!
## Branch lemmas for `addModule` / `newModPfxStage`

Each lemma fixes the outcome of the lookups and conditions and states the
resulting library exactly; all later theorems are assembled from these.
-/

theorem newModPfxStage_coll (lib : Library) (m : ModRec) (owner : ModRec)
    (h1 : alookup lib.prefixes m.pfx = some owner)
    (h2 : m.name.endsWith annSuffix = false) :
    newModPfxStage lib m = { lib with logs := lib.logs ++ [(COLL_PFX, [owner, m])] } := by
  simp [newModPfxStage, h1, h2]

theorem newModPfxStage_reg_ann (lib : Library) (m : ModRec) (owner : ModRec)
    (h1 : alookup lib.prefixes m.pfx = some owner)
    (h2 : m.name.endsWith annSuffix = true) :
    newModPfxStage lib m =
      { lib with prefixes := aset lib.prefixes m.pfx m,
                 logs := lib.logs ++ [(NEW_MODULE, [m])] } := by
  simp [newModPfxStage, h1, h2]

theorem newModPfxStage_reg_free (lib : Library) (m : ModRec)
    (h1 : alookup lib.prefixes m.pfx = none) :
    newModPfxStage lib m =
      { lib with prefixes := aset lib.prefixes m.pfx m,
                 logs := lib.logs ++ [(NEW_MODULE, [m])] } := by
  simp [newModPfxStage, h1]

theorem addModule_new_ns_coll (lib : Library) (m : ModRec) (owner : ModRec)
    (h1 : alookup lib.mods m.name = none)
    (h2 : alookup lib.namespaces m.ns = some owner)
    (h3 : m.kind ≠ submoduleKind ∧ m.name.endsWith annSuffix = false) :
    addModule lib m =
      { lib with mods := aset lib.mods m.name [(m.modulerevision, m)],
                 logs := lib.logs ++ [(COLL_NAMESPACE, [owner, m])] } := by
  simp [addModule, h1, h2, h3]

theorem addModule_new_ns_exempt (lib : Library) (m : ModRec) (owner : ModRec)
    (h1 : alookup lib.mods m.name = none)
    (h2 : alookup lib.namespaces m.ns = some owner)
    (h3 : ¬(m.kind ≠ submoduleKind ∧ m.name.endsWith annSuffix = false)) :
    addModule lib m =
      newModPfxStage
        { lib with mods := aset lib.mods m.name [(m.modulerevision, m)],
                   namespaces := aset lib.namespaces m.ns m } m := by
  simp [addModule, h1, h2, h3]

theorem addModule_new_ns_free (lib : Library) (m : ModRec)
    (h1 : alookup lib.mods m.name = none)
    (h2 : alookup lib.namespaces m.ns = none) :
    addModule lib m =
      newModPfxStage
        { lib with mods := aset lib.mods m.name [(m.modulerevision, m)],
                   namespaces := aset lib.namespaces m.ns m } m := by
  simp [addModule, h1, h2]

theorem addModule_newrev_diff_ns (lib : Library) (m : ModRec)
    (revmap : List (String × ModRec)) (r0 : String) (libMod : ModRec)
    (h1 : alookup lib.mods m.name = some revmap)
    (h2 : alookup revmap m.modulerevision = none)
    (h3 : revmap.head? = some (r0, libMod))
    (h4 : libMod.ns ≠ m.ns ∧ m.ns ≠ undef ∧ libMod.ns ≠ undef) :
    addModule lib m =
      { lib with mods := aset lib.mods m.name (aset revmap m.modulerevision m),
                 logs := lib.logs ++ [(DIFF_NAMESPACE, [libMod, m])] } := by
  simp [addModule, h1, h2, h3, h4]

theorem addModule_newrev_diff_pfx (lib : Library) (m : ModRec)
    (revmap : List (String × ModRec)) (r0 : String) (libMod : ModRec)
    (h1 : alookup lib.mods m.name = some revmap)
    (h2 : alookup revmap m.modulerevision = none)
    (h3 : revmap.head? = some (r0, libMod))
    (h4 : ¬(libMod.ns ≠ m.ns ∧ m.ns ≠ undef ∧ libMod.ns ≠ undef))
    (h5 : libMod.pfx ≠ m.pfx) :
    addModule lib m =
      { lib with mods := aset lib.mods m.name (aset revmap m.modulerevision m),
                 logs := lib.logs ++ [(DIFF_PFX, [libMod, m])] } := by
  simp [addModule, h1, h2, h3, h4, h5]

theorem addModule_newrev_clean (lib : Library) (m : ModRec)
    (revmap : List (String × ModRec)) (r0 : String) (libMod : ModRec)
    (h1 : alookup lib.mods m.name = some revmap)
    (h2 : alookup revmap m.modulerevision = none)
    (h3 : revmap.head? = some (r0, libMod))
    (h4 : ¬(libMod.ns ≠ m.ns ∧ m.ns ≠ undef ∧ libMod.ns ≠ undef))
    (h5 : libMod.pfx = m.pfx) :
    addModule lib m =
      { lib with mods := aset lib.mods m.name (aset revmap m.modulerevision m) } := by
  simp [addModule, h1, h2, h3, h4, h5]

theorem addModule_knownrev_diff (lib : Library) (m : ModRec)
    (revmap : List (String × ModRec)) (stored : ModRec)
    (h1 : alookup lib.mods m.name = some revmap)
    (h2 : alookup revmap m.modulerevision = some stored)
    (h3 : stored.csum ≠ m.csum) :
    addModule lib m = { lib with logs := lib.logs ++ [(DIFF_CHECKSUM, [stored, m])] } := by
  simp [addModule, h1, h2, h3]

theorem addModule_knownrev_same (lib : Library) (m : ModRec)
    (revmap : List (String × ModRec)) (stored : ModRec)
    (h1 : alookup lib.mods m.name = some revmap)
    (h2 : alookup revmap m.modulerevision = some stored)
    (h3 : stored.csum = m.csum) :
    addModule lib m = lib := by
  simp [addModule, h1, h2, h3]

/-!
## State-shape lemmas for the merge engine
-/

theorem storedAt_none (lib : Library) (n r : String)
    (h : alookup lib.mods n = none) : storedAt lib n r = none := by
  simp [storedAt, h]

theorem storedAt_some (lib : Library) (n r : String) (revmap : List (String × ModRec))
    (h : alookup lib.mods n = some revmap) : storedAt lib n r = alookup revmap r := by
  simp [storedAt, h]

theorem alookup_mem {α : Type} (l : List (String × α)) (k : String) (v : α)
    (h : alookup l k = some v) : (k, v) ∈ l := by
  induction l with
  | nil => simp [alookup] at h
  | cons p rest ih =>
    obtain ⟨k2, w⟩ := p
    by_cases h2 : k2 = k
    · subst h2
      simp [alookup] at h
      simp [h]
    · simp [alookup, h2] at h
      simp [ih h]

theorem newModPfxStage_mods (lib : Library) (m : ModRec) :
    (newModPfxStage lib m).mods = lib.mods := by
  unfold newModPfxStage
  cases h : alookup lib.prefixes m.pfx with
  | none => simp
  | some owner => by_cases h2 : m.name.endsWith annSuffix = false <;> simp [h2]

theorem newModPfxStage_namespaces (lib : Library) (m : ModRec) :
    (newModPfxStage lib m).namespaces = lib.namespaces := by
  unfold newModPfxStage
  cases h : alookup lib.prefixes m.pfx with
  | none => simp
  | some owner => by_cases h2 : m.name.endsWith annSuffix = false <;> simp [h2]

theorem newModPfxStage_logs_append (lib : Library) (m : ModRec) :
    ∃ d, (newModPfxStage lib m).logs = lib.logs ++ d := by
  unfold newModPfxStage
  cases h : alookup lib.prefixes m.pfx with
  | none => exact ⟨_, rfl⟩
  | some owner =>
    by_cases h2 : m.name.endsWith annSuffix = false <;> simp [h2]

/-- The `mods` map after the new-module branch. -/
theorem addModule_mods_new (lib : Library) (m : ModRec)
    (h1 : alookup lib.mods m.name = none) :
    (addModule lib m).mods = aset lib.mods m.name [(m.modulerevision, m)] := by
  cases h2 : alookup lib.namespaces m.ns with
  | none => rw [addModule_new_ns_free lib m h1 h2, newModPfxStage_mods]
  | some owner =>
    by_cases h3 : m.kind ≠ submoduleKind ∧ m.name.endsWith annSuffix = false
    · rw [addModule_new_ns_coll lib m owner h1 h2 h3]
    · rw [addModule_new_ns_exempt lib m owner h1 h2 h3, newModPfxStage_mods]

/-- The `mods` map after the new-revision branch. -/
theorem addModule_mods_newrev (lib : Library) (m : ModRec)
    (revmap : List (String × ModRec))
    (h1 : alookup lib.mods m.name = some revmap)
    (h2 : alookup revmap m.modulerevision = none) :
    (addModule lib m).mods = aset lib.mods m.name (aset revmap m.modulerevision m) := by
  simp only [addModule, h1, h2]
  cases h3 : revmap.head? with
  | none => simp
  | some p =>
    obtain ⟨r0, libMod⟩ := p
    by_cases h4 : libMod.ns ≠ m.ns ∧ m.ns ≠ undef ∧ libMod.ns ≠ undef
    · simp [h4]
    · by_cases h5 : libMod.pfx ≠ m.pfx <;> simp [h4, h5]

/-- The `mods` map is untouched by the known-revision branch. -/
theorem addModule_mods_knownrev (lib : Library) (m : ModRec)
    (revmap : List (String × ModRec)) (stored : ModRec)
    (h1 : alookup lib.mods m.name = some revmap)
    (h2 : alookup revmap m.modulerevision = some stored) :
    (addModule lib m).mods = lib.mods := by
  by_cases h3 : stored.csum ≠ m.csum
  · rw [addModule_knownrev_diff lib m revmap stored h1 h2 h3]
  · rw [addModule_knownrev_same lib m revmap stored h1 h2 (not_not.mp h3)]

/-- The namespace and prefix indices are untouched when the module name is
already known (new-revision and known-revision branches). -/
theorem addModule_known_idx (lib : Library) (m : ModRec)
    (revmap : List (String × ModRec))
    (h1 : alookup lib.mods m.name = some revmap) :
    (addModule lib m).namespaces = lib.namespaces ∧
      (addModule lib m).prefixes = lib.prefixes := by
  simp only [addModule, h1]
  cases h2 : alookup revmap m.modulerevision with
  | none =>
    cases h3 : revmap.head? with
    | none => simp
    | some p =>
      obtain ⟨r0, libMod⟩ := p
      by_cases h4 : libMod.ns ≠ m.ns ∧ m.ns ≠ undef ∧ libMod.ns ≠ undef
      · simp [h4]
      · by_cases h5 : libMod.pfx ≠ m.pfx <;> simp [h4, h5]
  | some stored =>
    by_cases h3 : stored.csum ≠ m.csum <;> simp [h3]

/-- One merge step appends to the log (it never rewrites or drops entries). -/
theorem addModule_logs_append (lib : Library) (m : ModRec) :
    ∃ d, (addModule lib m).logs = lib.logs ++ d := by
  cases h1 : alookup lib.mods m.name with
  | none =>
    cases h2 : alookup lib.namespaces m.ns with
    | none =>
      rw [addModule_new_ns_free lib m h1 h2]
      exact newModPfxStage_logs_append _ m
    | some owner =>
      by_cases h3 : m.kind ≠ submoduleKind ∧ m.name.endsWith annSuffix = false
      · rw [addModule_new_ns_coll lib m owner h1 h2 h3]
        exact ⟨_, rfl⟩
      · rw [addModule_new_ns_exempt lib m owner h1 h2 h3]
        exact newModPfxStage_logs_append _ m
  | some revmap =>
    cases h2 : alookup revmap m.modulerevision with
    | none =>
      simp only [addModule, h1, h2]
      cases h3 : revmap.head? with
      | none => exact ⟨[], by simp⟩
      | some p =>
        obtain ⟨r0, libMod⟩ := p
        by_cases h4 : libMod.ns ≠ m.ns ∧ m.ns ≠ undef ∧ libMod.ns ≠ undef
        · simp [h4]
        · by_cases h5 : libMod.pfx ≠ m.pfx
          · simp [h4, h5]
          · simp [h4, h5]
    | some stored =>
      by_cases h3 : stored.csum ≠ m.csum
      · rw [addModule_knownrev_diff lib m revmap stored h1 h2 h3]
        exact ⟨_, rfl⟩
      · rw [addModule_knownrev_same lib m revmap stored h1 h2 (not_not.mp h3)]
        exact ⟨[], by simp⟩

/-- Batch version of `addModule_logs_append`. -/
theorem add_modules_logs_append (lib : Library) (ms : List ModRec) :
    ∃ d, (add_modules lib ms).logs = lib.logs ++ d := by
  induction ms generalizing lib with
  | nil => exact ⟨[], by simp [add_modules]⟩
  | cons m rest ih =>
    obtain ⟨d1, hd1⟩ := addModule_logs_append lib m
    obtain ⟨d2, hd2⟩ := ih (addModule lib m)
    refine ⟨d1 ++ d2, ?_⟩
    show (add_modules (addModule lib m) rest).logs = _
    rw [hd2, hd1, List.append_assoc]

/-- A stored record is never replaced by a later merge step. -/
theorem storedAt_addModule (lib : Library) (m : ModRec) (n r : String) (stored : ModRec)
    (h : storedAt lib n r = some stored) :
    storedAt (addModule lib m) n r = some stored := by
  cases hn : alookup lib.mods n with
  | none => rw [storedAt_none lib n r hn] at h; cases h
  | some revmapN =>
    rw [storedAt_some lib n r revmapN hn] at h
    cases h1 : alookup lib.mods m.name with
    | none =>
      have hne : n ≠ m.name := by
        intro e; rw [e, h1] at hn; cases hn
      rw [storedAt_some _ n r revmapN
        (by rw [addModule_mods_new lib m h1, alookup_aset_ne _ _ _ _ hne]; exact hn), h]
    | some revmap =>
      cases h2 : alookup revmap m.modulerevision with
      | none =>
        by_cases hne : n = m.name
        · subst hne
          have hrev : revmapN = revmap := by rw [hn] at h1; cases h1; rfl
          subst hrev
          have hrne : r ≠ m.modulerevision := by
            intro e; rw [e, h2] at h; cases h
          rw [storedAt_some _ m.name r (aset revmapN m.modulerevision m)
            (by rw [addModule_mods_newrev lib m revmapN h1 h2]; exact alookup_aset_self _ _ _),
            alookup_aset_ne _ _ _ _ hrne, h]
        · rw [storedAt_some _ n r revmapN
            (by rw [addModule_mods_newrev lib m revmap h1 h2, alookup_aset_ne _ _ _ _ hne]
                exact hn), h]
      | some stored2 =>
        rw [storedAt_some _ n r revmapN
          (by rw [addModule_mods_knownrev lib m revmap stored2 h1 h2]; exact hn), h]

/-- Batch version of `storedAt_addModule`. -/
theorem storedAt_add_modules (lib : Library) (ms : List ModRec) (n r : String)
    (stored : ModRec) (h : storedAt lib n r = some stored) :
    storedAt (add_modules lib ms) n r = some stored := by
  induction ms generalizing lib with
  | nil => exact h
  | cons m rest ih =>
    exact ih (addModule lib m) (storedAt_addModule lib m n r stored h)

/-- After a merge step, the record's own key is always occupied; if the
occupant's checksum differs from the record's, that step logged exactly the
one `DIFF_CHECKSUM` entry. -/
theorem addModule_self_stored (lib : Library) (m : ModRec) :
    ∃ s, storedAt (addModule lib m) m.name m.modulerevision = some s ∧
      (s.csum ≠ m.csum →
        (addModule lib m).logs = lib.logs ++ [(DIFF_CHECKSUM, [s, m])]) := by
  cases h1 : alookup lib.mods m.name with
  | none =>
    refine ⟨m, ?_, fun hc => absurd rfl hc⟩
    rw [storedAt_some _ _ _ [(m.modulerevision, m)]
      (by rw [addModule_mods_new lib m h1]; exact alookup_aset_self _ _ _)]
    simp [alookup]
  | some revmap =>
    cases h2 : alookup revmap m.modulerevision with
    | none =>
      refine ⟨m, ?_, fun hc => absurd rfl hc⟩
      rw [storedAt_some _ _ _ (aset revmap m.modulerevision m)
        (by rw [addModule_mods_newrev lib m revmap h1 h2]; exact alookup_aset_self _ _ _)]
      exact alookup_aset_self _ _ _
    | some stored =>
      refine ⟨stored, ?_, fun hc => ?_⟩
      · rw [storedAt_some _ _ _ revmap
          (by rw [addModule_mods_knownrev lib m revmap stored h1 h2]; exact h1), h2]
      · rw [addModule_knownrev_diff lib m revmap stored h1 h2 hc]

/-- Re-merging a record whose key already holds a record with the same
checksum leaves the library bit-for-bit unchanged. -/
theorem addModule_eq_self_of_same (lib : Library) (m : ModRec) (s : ModRec)
    (h : storedAt lib m.name m.modulerevision = some s) (hc : s.csum = m.csum) :
    addModule lib m = lib := by
  cases h1 : alookup lib.mods m.name with
  | none => rw [storedAt_none lib _ _ h1] at h; cases h
  | some revmap =>
    rw [storedAt_some lib _ _ revmap h1] at h
    exact addModule_knownrev_same lib m revmap s h1 h hc

/-- One merge step preserves well-formedness of the registry maps. -/
theorem wfLib_addModule (lib : Library) (m : ModRec) (h : wfLib lib) :
    wfLib (addModule lib m) := by
  obtain ⟨hkeys, hmaps⟩ := h
  cases h1 : alookup lib.mods m.name with
  | none =>
    constructor
    · rw [addModule_mods_new lib m h1]; exact aset_keys_nodup _ _ _ hkeys
    · intro p hp
      rw [addModule_mods_new lib m h1] at hp
      rcases mem_aset _ _ _ _ hp with hmem | heq
      · exact hmaps p hmem
      · subst heq; simp
  | some revmap =>
    cases h2 : alookup revmap m.modulerevision with
    | none =>
      constructor
      · rw [addModule_mods_newrev lib m revmap h1 h2]; exact aset_keys_nodup _ _ _ hkeys
      · intro p hp
        rw [addModule_mods_newrev lib m revmap h1 h2] at hp
        rcases mem_aset _ _ _ _ hp with hmem | heq
        · exact hmaps p hmem
        · subst heq
          have hrm : (revmap.map Prod.fst).Nodup :=
            hmaps (m.name, revmap) (alookup_mem _ _ _ h1)
          exact aset_keys_nodup _ _ _ hrm
    | some stored =>
      constructor
      · rw [addModule_mods_knownrev lib m revmap stored h1 h2]; exact hkeys
      · intro p hp
        rw [addModule_mods_knownrev lib m revmap stored h1 h2] at hp
        exact hmaps p hp

/-- Batch version of `wfLib_addModule`. -/
theorem wfLib_add_modules (lib : Library) (ms : List ModRec) (h : wfLib lib) :
    wfLib (add_modules lib ms) := by
  induction ms generalizing lib with
  | nil => exact h
  | cons m rest ih => exact ih (addModule lib m) (wfLib_addModule lib m h)

/-!
## Concrete records shared by witnesses and counterexamples
-/

/-- Record `a@2020-01-01`, a plain module. -/
def recA : ModRec :=
  { name := "a", rev := "2020-01-01", rel := "R1", csum := "c1",
    ns := "urn:a", pfx := "a", kind := "module", fname := "a.yang" }

/-- Same name and revision as `recA`, different checksum. -/
def recAbad : ModRec :=
  { name := "a", rev := "2020-01-01", rel := "R2", csum := "c2",
    ns := "urn:a", pfx := "a", kind := "module", fname := "a.yang" }

/-- A second revision of `a` with a different namespace (neither undefined). -/
def recA2 : ModRec :=
  { name := "a", rev := "2020-02-01", rel := "R2", csum := "c3",
    ns := "urn:a2", pfx := "a", kind := "module", fname := "a.yang" }

/-- A fresh module name `b` sharing `recA`'s namespace. -/
def recB : ModRec :=
  { name := "b", rev := "2020-01-01", rel := "R1", csum := "c4",
    ns := "urn:a", pfx := "b", kind := "module", fname := "b.yang" }

/-- A submodule named `s` sharing `recA`'s namespace, with its own prefix. -/
def recSub : ModRec :=
  { name := "s", rev := "2020-01-01", rel := "R1", csum := "c5",
    ns := "urn:a", pfx := "s", kind := "submodule", fname := "s.yang" }

/-- A submodule named `t` with its own namespace but `recA`'s prefix. -/
def recSubP : ModRec :=
  { name := "t", rev := "2020-01-01", rel := "R1", csum := "c6",
    ns := "urn:t", pfx := "a", kind := "submodule", fname := "t.yang" }

/-- The library after merging just `recA` into a fresh registry. -/
def libA : Library := add_modules emptyLibrary [recA]

/-!
## Claim theorems
-/

/-- **C1** (confirmed).  For every merge sequence and every key
`(name, effective revision)`: at most one record occupies the key (the maps
stay well-formed), an occupant is never replaced by later merges, and when a
merged record `m` finds its key occupied by `stored`, a differing checksum
appends exactly the one entry `(DIFF_CHECKSUM, [stored, m])` while a matching
checksum appends nothing (the state is unchanged). -/
theorem c1_revision_key_immutable (lib : Library) (ms : List ModRec) (m : ModRec)
    (n r : String) (stored : ModRec) (h : storedAt lib n r = some stored) :
    storedAt (add_modules lib ms) n r = some stored ∧
      (wfLib lib → wfLib (add_modules lib ms)) ∧
      (m.name = n → m.modulerevision = r →
        (stored.csum ≠ m.csum →
          (addModule lib m).logs = lib.logs ++ [(DIFF_CHECKSUM, [stored, m])]) ∧
        (stored.csum = m.csum → addModule lib m = lib)) := by
  refine ⟨storedAt_add_modules lib ms n r stored h, wfLib_add_modules lib ms, ?_⟩
  intro hn hr
  subst hn
  subst hr
  constructor
  · intro hc
    cases h1 : alookup lib.mods m.name with
    | none => rw [storedAt_none lib _ _ h1] at h; cases h
    | some revmap =>
      rw [storedAt_some lib _ _ revmap h1] at h
      rw [addModule_knownrev_diff lib m revmap stored h1 h hc]
  · intro hc
    exact addModule_eq_self_of_same lib m stored h hc

/-- Witness for `c1_revision_key_immutable` at `libA` with the
checksum-conflicting record `recAbad`. -/
theorem c1_revision_key_immutable_witness :
    storedAt libA recA.name recA.rev = some recA ∧
      storedAt (add_modules libA [recAbad]) recA.name recA.rev = some recA ∧
      (addModule libA recAbad).logs =
        libA.logs ++ [(DIFF_CHECKSUM, [recA, recAbad])] :=
  ⟨by decide,
   (c1_revision_key_immutable libA [recAbad] recAbad recA.name recA.rev recA
      (by decide)).1,
   ((c1_revision_key_immutable libA [recAbad] recAbad recA.name recA.rev recA
      (by decide)).2.2 (by decide) (by decide)).1 (by decide)⟩

/-- `toModRec` builds its record's name through the `modulename` property. -/
theorem toModRec_name (mi : List (String × String)) (m : ModRec)
    (h : toModRec mi = some m) : m.name = modulenameOf mi := by
  unfold toModRec at h
  split at h
  · cases h; rfl
  · cases h

/-- **C10** (confirmed).  Reading `modulename` from a record whose metadata
mapping lacks the `'modulename'` key never raises: the property returns the
constant `"foo"`, and any record built from such a mapping carries the module
name `"foo"` into merge classification and indexing. -/
theorem c10_modulename_fallback (mi : List (String × String))
    (h : alookup mi kwModulename = none) :
    modulenameOf mi = "foo" ∧
      ∀ m : ModRec, toModRec mi = some m → m.name = "foo" := by
  have hfoo : modulenameOf mi = "foo" := by simp [modulenameOf, h]
  exact ⟨hfoo, fun m hm => (toModRec_name mi m hm).trans hfoo⟩

/-- A `modinfo` mapping with every key except `modulename`. -/
def miNoName : List (String × String) :=
  [(kwModulerevision, "2020-01-01"), (kwRelease, "R1"), (kwChecksum, "c1"),
   (kwNamespace, "urn:a"), (kwPfx, "a"), (kwKind, "module"),
   (kwFilename, "a.yang")]

/-- Witness for `c10_modulename_fallback` at `miNoName`. -/
theorem c10_modulename_fallback_witness :
    alookup miNoName kwModulename = none ∧ modulenameOf miNoName = "foo" :=
  ⟨by decide, (c10_modulename_fallback miNoName (by decide)).1⟩

/-- A namespace owner survives one merge step of a non-exempt record. -/
theorem ns_owner_step (lib : Library) (m : ModRec) (k : String) (o : ModRec)
    (h : alookup lib.namespaces k = some o)
    (hk : m.kind ≠ submoduleKind) (ha : m.name.endsWith annSuffix = false) :
    alookup (addModule lib m).namespaces k = some o := by
  cases h1 : alookup lib.mods m.name with
  | some revmap => rw [(addModule_known_idx lib m revmap h1).1]; exact h
  | none =>
    cases h2 : alookup lib.namespaces m.ns with
    | some owner =>
      rw [addModule_new_ns_coll lib m owner h1 h2 ⟨hk, ha⟩]
      exact h
    | none =>
      have hne : k ≠ m.ns := by
        intro e; rw [e, h2] at h; cases h
      rw [addModule_new_ns_free lib m h1 h2, newModPfxStage_namespaces]
      show alookup (aset lib.namespaces m.ns m) k = some o
      rw [alookup_aset_ne _ _ _ _ hne]
      exact h

/-- A prefix owner survives one merge step of a record without the `-ann`
naming suffix. -/
theorem pfx_owner_step (lib : Library) (m : ModRec) (k : String) (o : ModRec)
    (h : alookup lib.prefixes k = some o)
    (ha : m.name.endsWith annSuffix = false) :
    alookup (addModule lib m).prefixes k = some o := by
  cases h1 : alookup lib.mods m.name with
  | some revmap => rw [(addModule_known_idx lib m revmap h1).2]; exact h
  | none =>
    have hstage : ∀ lib2 : Library, lib2.prefixes = lib.prefixes →
        alookup (newModPfxStage lib2 m).prefixes k = some o := by
      intro lib2 hl2
      cases h2 : alookup lib2.prefixes m.pfx with
      | some owner =>
        rw [newModPfxStage_coll lib2 m owner h2 ha]
        show alookup lib2.prefixes k = some o
        rw [hl2]; exact h
      | none =>
        have hne : k ≠ m.pfx := by
          rw [hl2] at h2
          intro e; rw [e, h2] at h; cases h
        rw [newModPfxStage_reg_free lib2 m h2]
        show alookup (aset lib2.prefixes m.pfx m) k = some o
        rw [alookup_aset_ne _ _ _ _ hne, hl2]
        exact h
    cases h2 : alookup lib.namespaces m.ns with
    | none => rw [addModule_new_ns_free lib m h1 h2]; exact hstage _ rfl
    | some owner =>
      by_cases h3 : m.kind ≠ submoduleKind ∧ m.name.endsWith annSuffix = false
      · rw [addModule_new_ns_coll lib m owner h1 h2 h3]; exact h
      · rw [addModule_new_ns_exempt lib m owner h1 h2 h3]; exact hstage _ rfl

/-- **C2** counterexample.  The claim says a first-seen namespace owner is
never replaced *regardless of the later record's kind or name*; but merging
the submodule `recSub`, whose namespace is already owned by `recA`, replaces
`recA` as the owner of `urn:a`. -/
theorem c2_counterexample :
    alookup (add_modules emptyLibrary [recA, recSub]).namespaces recA.ns =
        some recSub ∧
      recSub ≠ recA := by decide

/-- **C2 amended** (the counterexample forces the exemption proviso): the
first-seen indices are monotonic for non-exempt records.  A namespace owner
persists through any merge sequence whose records all have kind other than
submodule and names without the `-ann` suffix; a prefix owner persists
through any merge sequence whose records all lack the `-ann` suffix. -/
theorem c2_first_seen_monotonic_amended (lib : Library) (ms : List ModRec)
    (k : String) (o : ModRec) :
    (alookup lib.namespaces k = some o →
      (∀ m ∈ ms, m.kind ≠ submoduleKind ∧ m.name.endsWith annSuffix = false) →
      alookup (add_modules lib ms).namespaces k = some o) ∧
    (alookup lib.prefixes k = some o →
      (∀ m ∈ ms, m.name.endsWith annSuffix = false) →
      alookup (add_modules lib ms).prefixes k = some o) := by
  constructor
  · intro h hall
    induction ms generalizing lib with
    | nil => exact h
    | cons m rest ih =>
      have hm := hall m (by simp)
      exact ih (addModule lib m) (ns_owner_step lib m k o h hm.1 hm.2)
        (fun m2 hm2 => hall m2 (by simp [hm2]))
  · intro h hall
    induction ms generalizing lib with
    | nil => exact h
    | cons m rest ih =>
      exact ih (addModule lib m)
        (pfx_owner_step lib m k o h (hall m (by simp)))
        (fun m2 hm2 => hall m2 (by simp [hm2]))

/-- Witness for `c2_first_seen_monotonic_amended`: after `recB` (same
namespace, module kind, no `-ann`) is merged into `libA`, `recA` still owns
both its namespace and its prefix. -/
theorem c2_first_seen_monotonic_amended_witness :
    alookup libA.namespaces recA.ns = some recA ∧
      alookup (add_modules libA [recB]).namespaces recA.ns = some recA ∧
      alookup (add_modules libA [recB]).prefixes recA.pfx = some recA :=
  ⟨by decide,
   (c2_first_seen_monotonic_amended libA [recB] recA.ns recA).1
     (by decide) (by decide),
   (c2_first_seen_monotonic_amended libA [recB] recA.pfx recA).2
     (by decide) (by decide)⟩

/-- **C3** counterexample.  The claim says the prefix collision check uses
the same exemption rule as the namespace check, so a submodule whose prefix
is already owned would emit no `COLL_PFX` and become the owner; but merging
the submodule `recSubP` (prefix `a`, owned by `recA`) into `libA` emits
`COLL_PFX` and leaves `recA` as the owner. -/
theorem c3_counterexample :
    (add_modules libA [recSubP]).logs =
        libA.logs ++ [(COLL_PFX, [recA, recSubP])] ∧
      alookup (add_modules libA [recSubP]).prefixes recSubP.pfx = some recA ∧
      recSubP.kind = submoduleKind := by decide

/-- **C3 amended** (the counterexample forces dropping the kind clause):
the prefix check exempts only records whose name ends in `-ann` — the kind
is not consulted.  For a new-named record that passed the namespace stage
and whose prefix is owned: without the suffix, exactly one
`(COLL_PFX, [owner, m])` entry is appended and the owner is kept (whatever
`m.kind` is, submodules included); with the suffix, `m` replaces the owner
and a `NEW_MODULE` entry is appended. -/
theorem c3_pfx_exemption_amended (lib : Library) (m : ModRec) (owner : ModRec)
    (h1 : alookup lib.mods m.name = none)
    (h2 : alookup lib.namespaces m.ns = none ∨ m.kind = submoduleKind ∨
          m.name.endsWith annSuffix = true)
    (h3 : alookup lib.prefixes m.pfx = some owner) :
    (m.name.endsWith annSuffix = false →
      (addModule lib m).logs = lib.logs ++ [(COLL_PFX, [owner, m])] ∧
        alookup (addModule lib m).prefixes m.pfx = some owner) ∧
    (m.name.endsWith annSuffix = true →
      alookup (addModule lib m).prefixes m.pfx = some m ∧
        (addModule lib m).logs = lib.logs ++ [(NEW_MODULE, [m])]) := by
  have hstep : addModule lib m =
      newModPfxStage
        { lib with mods := aset lib.mods m.name [(m.modulerevision, m)],
                   namespaces := aset lib.namespaces m.ns m } m := by
    cases hns : alookup lib.namespaces m.ns with
    | none => exact addModule_new_ns_free lib m h1 hns
    | some owner2 =>
      refine addModule_new_ns_exempt lib m owner2 h1 hns ?_
      rcases h2 with h2 | h2 | h2
      · rw [h2] at hns; cases hns
      · intro hcon; exact hcon.1 h2
      · intro hcon; rw [h2] at hcon; cases hcon.2
  constructor
  · intro ha
    rw [hstep, newModPfxStage_coll
      { lib with mods := aset lib.mods m.name [(m.modulerevision, m)],
                 namespaces := aset lib.namespaces m.ns m } m owner h3 ha]
    exact ⟨rfl, h3⟩
  · intro ha
    rw [hstep, newModPfxStage_reg_ann
      { lib with mods := aset lib.mods m.name [(m.modulerevision, m)],
                 namespaces := aset lib.namespaces m.ns m } m owner h3 ha]
    exact ⟨alookup_aset_self _ _ _, rfl⟩

/-- Witness for `c3_pfx_exemption_amended` at `libA` and the submodule
`recSubP`. -/
theorem c3_pfx_exemption_amended_witness :
    alookup libA.mods recSubP.name = none ∧
      alookup libA.prefixes recSubP.pfx = some recA ∧
      (addModule libA recSubP).logs =
        libA.logs ++ [(COLL_PFX, [recA, recSubP])] ∧
      alookup (addModule libA recSubP).prefixes recSubP.pfx = some recA :=
  ⟨by decide, by decide,
   (c3_pfx_exemption_amended libA recSubP recA (by decide)
      (Or.inr (Or.inl (by decide))) (by decide)).1 (by decide)⟩

/-- The prefix stage appends exactly one entry, and it is a `COLL_PFX` or a
`NEW_MODULE` entry carrying `m`. -/
theorem newModPfxStage_logs_codes (lib : Library) (m : ModRec) :
    ∃ e : Nat × List ModRec, (newModPfxStage lib m).logs = lib.logs ++ [e] ∧
      (e.1 = COLL_PFX ∨ e.1 = NEW_MODULE) ∧ m ∈ e.2 := by
  unfold newModPfxStage
  cases h : alookup lib.prefixes m.pfx with
  | none => exact ⟨(NEW_MODULE, [m]), rfl, Or.inr rfl, by simp⟩
  | some owner =>
    by_cases h2 : m.name.endsWith annSuffix = false
    · simp only [h2, if_true]
      exact ⟨(COLL_PFX, [owner, m]), rfl, Or.inl rfl, by simp⟩
    · simp only [h2, if_false]
      exact ⟨(NEW_MODULE, [m]), rfl, Or.inr rfl, by simp⟩

/-- **C4** counterexample.  The claim exempts the pair when *either* record
is a submodule; but with the submodule `recSub` merged first and the module
`recB` second (same namespace, fresh names, no prior owner), the code does
emit `COLL_NAMESPACE` for `recB`. -/
theorem c4_counterexample :
    (add_modules emptyLibrary [recSub, recB]).logs =
        [(NEW_MODULE, [recSub]), (COLL_NAMESPACE, [recSub, recB])] ∧
      recSub.kind = submoduleKind ∧ recSub.ns = recB.ns := by decide

/-- **C4 amended** (the counterexample forces the exemption to depend only on
the second record): for two records with the same namespace and distinct,
previously unknown names merged into a registry where that namespace has no
owner, the first becomes the namespace owner; the second triggers exactly one
`COLL_NAMESPACE` entry `(first, second)` iff the *second* record is not a
submodule and lacks the `-ann` suffix, and otherwise the second record's
entry is never a `COLL_NAMESPACE`. -/
theorem c4_first_seen_wins_amended (lib : Library) (m1 m2 : ModRec)
    (hname : m1.name ≠ m2.name)
    (h1 : alookup lib.mods m1.name = none)
    (h2 : alookup lib.mods m2.name = none)
    (hns : m1.ns = m2.ns)
    (hfree : alookup lib.namespaces m1.ns = none) :
    alookup (addModule lib m1).namespaces m1.ns = some m1 ∧
      (m2.kind ≠ submoduleKind → m2.name.endsWith annSuffix = false →
        (add_modules lib [m1, m2]).logs =
          (addModule lib m1).logs ++ [(COLL_NAMESPACE, [m1, m2])]) ∧
      ((m2.kind = submoduleKind ∨ m2.name.endsWith annSuffix = true) →
        ∃ e : Nat × List ModRec,
          (add_modules lib [m1, m2]).logs = (addModule lib m1).logs ++ [e] ∧
            e.1 ≠ COLL_NAMESPACE) := by
  have howner : alookup (addModule lib m1).namespaces m1.ns = some m1 := by
    rw [addModule_new_ns_free lib m1 h1 hfree, newModPfxStage_namespaces]
    exact alookup_aset_self _ _ _
  have hmods2 : alookup (addModule lib m1).mods m2.name = none := by
    rw [addModule_mods_new lib m1 h1, alookup_aset_ne _ _ _ _ (Ne.symm hname)]
    exact h2
  have hns2 : alookup (addModule lib m1).namespaces m2.ns = some m1 := by
    rw [← hns]; exact howner
  refine ⟨howner, ?_, ?_⟩
  · intro hk ha
    show (addModule (addModule lib m1) m2).logs = _
    rw [addModule_new_ns_coll (addModule lib m1) m2 m1 hmods2 hns2 ⟨hk, ha⟩]
  · intro hexempt
    have hcon : ¬(m2.kind ≠ submoduleKind ∧ m2.name.endsWith annSuffix = false) := by
      rcases hexempt with h | h
      · intro hc; exact hc.1 h
      · intro hc; rw [h] at hc; cases hc.2
    show ∃ e, (addModule (addModule lib m1) m2).logs = _ ∧ _
    rw [addModule_new_ns_exempt (addModule lib m1) m2 m1 hmods2 hns2 hcon]
    obtain ⟨e, he, hcode, -⟩ := newModPfxStage_logs_codes
      { addModule lib m1 with
          mods := aset (addModule lib m1).mods m2.name [(m2.modulerevision, m2)],
          namespaces := aset (addModule lib m1).namespaces m2.ns m2 } m2
    refine ⟨e, he, ?_⟩
    rcases hcode with h | h <;> rw [h] <;> decide

/-- Witness for `c4_first_seen_wins_amended` on an empty registry with
`recA` first and `recB` second. -/
theorem c4_first_seen_wins_amended_witness :
    alookup (addModule emptyLibrary recA).namespaces recA.ns = some recA ∧
      (add_modules emptyLibrary [recA, recB]).logs =
        (addModule emptyLibrary recA).logs ++ [(COLL_NAMESPACE, [recA, recB])] :=
  ⟨(c4_first_seen_wins_amended emptyLibrary recA recB (by decide) (by decide)
      (by decide) (by decide) (by decide)).1,
   (c4_first_seen_wins_amended emptyLibrary recA recB (by decide) (by decide)
      (by decide) (by decide) (by decide)).2.1 (by decide) (by decide)⟩

/-- **C9** (confirmed).  Merging a record with a previously unknown module
name appends exactly one log entry, which is a `COLL_NAMESPACE`, `COLL_PFX`
or `NEW_MODULE` entry carrying the record; and when it is a `COLL_PFX` entry
the record has nonetheless already been registered as its namespace's
owner. -/
theorem c9_new_name_single_entry (lib : Library) (m : ModRec)
    (h : alookup lib.mods m.name = none) :
    ∃ e : Nat × List ModRec, (addModule lib m).logs = lib.logs ++ [e] ∧
      (e.1 = COLL_NAMESPACE ∨ e.1 = COLL_PFX ∨ e.1 = NEW_MODULE) ∧
      m ∈ e.2 ∧
      (e.1 = COLL_PFX → alookup (addModule lib m).namespaces m.ns = some m) := by
  have hstage : ∀ hstep : addModule lib m =
        newModPfxStage
          { lib with mods := aset lib.mods m.name [(m.modulerevision, m)],
                     namespaces := aset lib.namespaces m.ns m } m,
      ∃ e : Nat × List ModRec, (addModule lib m).logs = lib.logs ++ [e] ∧
        (e.1 = COLL_NAMESPACE ∨ e.1 = COLL_PFX ∨ e.1 = NEW_MODULE) ∧
        m ∈ e.2 ∧
        (e.1 = COLL_PFX → alookup (addModule lib m).namespaces m.ns = some m) := by
    intro hstep
    obtain ⟨e, he, hcode, hmem⟩ := newModPfxStage_logs_codes
      { lib with mods := aset lib.mods m.name [(m.modulerevision, m)],
                 namespaces := aset lib.namespaces m.ns m } m
    refine ⟨e, by rw [hstep]; exact he, Or.inr hcode, hmem, fun _ => ?_⟩
    rw [hstep, newModPfxStage_namespaces]
    exact alookup_aset_self _ _ _
  cases h2 : alookup lib.namespaces m.ns with
  | none => exact hstage (addModule_new_ns_free lib m h h2)
  | some owner =>
    by_cases h3 : m.kind ≠ submoduleKind ∧ m.name.endsWith annSuffix = false
    · refine ⟨(COLL_NAMESPACE, [owner, m]), ?_, Or.inl rfl, by simp,
        fun hc => by simp [COLL_NAMESPACE, COLL_PFX] at hc⟩
      rw [addModule_new_ns_coll lib m owner h h2 h3]
    · exact hstage (addModule_new_ns_exempt lib m owner h h2 h3)

/-- Witness for `c9_new_name_single_entry` on the empty registry. -/
theorem c9_new_name_single_entry_witness :
    alookup emptyLibrary.mods recA.name = none ∧
      ∃ e : Nat × List ModRec,
        (addModule emptyLibrary recA).logs = emptyLibrary.logs ++ [e] ∧
        (e.1 = COLL_NAMESPACE ∨ e.1 = COLL_PFX ∨ e.1 = NEW_MODULE) ∧
        recA ∈ e.2 ∧
        (e.1 = COLL_PFX →
          alookup (addModule emptyLibrary recA).namespaces recA.ns = some recA) :=
  ⟨by decide, c9_new_name_single_entry emptyLibrary recA (by decide)⟩

/-- **C5** (confirmed).  Merging a known module name under an unseen
effective revision inserts the record under the new key; with `libMod` the
head of the revision map (the arbitrarily chosen existing revision): a
namespace difference with neither side `"undefined"` appends exactly one
`DIFF_NAMESPACE` entry and nothing else (in particular no `DIFF_PFX`);
otherwise a prefix difference appends exactly one `DIFF_PFX` entry, and
agreement appends nothing. -/
theorem c5_new_revision_checks (lib : Library) (m : ModRec)
    (revmap : List (String × ModRec)) (r0 : String) (libMod : ModRec)
    (h1 : alookup lib.mods m.name = some revmap)
    (h2 : alookup revmap m.modulerevision = none)
    (h3 : revmap.head? = some (r0, libMod)) :
    storedAt (addModule lib m) m.name m.modulerevision = some m ∧
      (libMod.ns ≠ m.ns ∧ m.ns ≠ undef ∧ libMod.ns ≠ undef →
        (addModule lib m).logs = lib.logs ++ [(DIFF_NAMESPACE, [libMod, m])]) ∧
      (¬(libMod.ns ≠ m.ns ∧ m.ns ≠ undef ∧ libMod.ns ≠ undef) →
        (libMod.pfx ≠ m.pfx →
          (addModule lib m).logs = lib.logs ++ [(DIFF_PFX, [libMod, m])]) ∧
        (libMod.pfx = m.pfx → (addModule lib m).logs = lib.logs)) := by
  refine ⟨?_, ?_, ?_⟩
  · rw [storedAt_some _ _ _ (aset revmap m.modulerevision m)
      (by rw [addModule_mods_newrev lib m revmap h1 h2]; exact alookup_aset_self _ _ _)]
    exact alookup_aset_self _ _ _
  · intro h4
    rw [addModule_newrev_diff_ns lib m revmap r0 libMod h1 h2 h3 h4]
  · intro h4
    constructor
    · intro h5
      rw [addModule_newrev_diff_pfx lib m revmap r0 libMod h1 h2 h3 h4 h5]
    · intro h5
      rw [addModule_newrev_clean lib m revmap r0 libMod h1 h2 h3 h4 h5]

/-- Witness for `c5_new_revision_checks`: merging revision `2020-02-01` of
`a` with namespace `urn:a2` into `libA` yields the `DIFF_NAMESPACE` entry
`(recA, recA2)`. -/
theorem c5_new_revision_checks_witness :
    alookup libA.mods recA2.name = some [(recA.rev, recA)] ∧
      storedAt (addModule libA recA2) recA2.name recA2.modulerevision =
        some recA2 ∧
      (addModule libA recA2).logs =
        libA.logs ++ [(DIFF_NAMESPACE, [recA, recA2])] :=
  ⟨by decide,
   (c5_new_revision_checks libA recA2 [(recA.rev, recA)] recA.rev recA
      (by decide) (by decide) (by decide)).1,
   (c5_new_revision_checks libA recA2 [(recA.rev, recA)] recA.rev recA
      (by decide) (by decide) (by decide)).2.1 (by decide)⟩

/-- **C6** counterexample.  Re-merging an identical batch is not always
log-neutral: the batch `[recAbad]` (whose record conflicts in checksum with
the occupant of its key) makes the first merge log `DIFF_CHECKSUM`, and the
second, identical merge logs it again. -/
theorem c6_counterexample :
    (add_modules (add_modules libA [recAbad]) [recAbad]).logs ≠
      (add_modules libA [recAbad]).logs := by decide

/-- Every record of a merged batch ends with its key occupied by a record of
its own checksum, provided the merge logged no `DIFF_CHECKSUM`. -/
theorem merge_stores_same_csum (B : List ModRec) (lib : Library)
    (h : ∀ e ∈ (add_modules lib B).logs.drop lib.logs.length,
      e.1 ≠ DIFF_CHECKSUM) :
    ∀ m ∈ B, ∃ s, storedAt (add_modules lib B) m.name m.modulerevision = some s ∧
      s.csum = m.csum := by
  induction B generalizing lib with
  | nil => intro m hm; cases hm
  | cons m rest ih =>
    obtain ⟨d1, hd1⟩ := addModule_logs_append lib m
    obtain ⟨d2, hd2⟩ := add_modules_logs_append (addModule lib m) rest
    have hlogs : (add_modules lib (m :: rest)).logs = lib.logs ++ (d1 ++ d2) := by
      show (add_modules (addModule lib m) rest).logs = _
      rw [hd2, hd1, List.append_assoc]
    have hdelta : ∀ e ∈ d1 ++ d2, e.1 ≠ DIFF_CHECKSUM := by
      intro e he
      refine h e ?_
      rw [hlogs, List.drop_left]
      exact he
    intro m2 hm2
    rcases List.mem_cons.mp hm2 with hm2 | hm2
    · subst hm2
      obtain ⟨s, hs, hcs⟩ := addModule_self_stored lib m2
      refine ⟨s, ?_, ?_⟩
      · exact storedAt_add_modules (addModule lib m2) rest _ _ s hs
      · by_contra hne
        have : (addModule lib m2).logs = lib.logs ++ [(DIFF_CHECKSUM, [s, m2])] :=
          hcs (fun e => hne e)
        rw [hd1] at this
        have hd1eq : d1 = [(DIFF_CHECKSUM, [s, m2])] :=
          List.append_cancel_left this
        refine hdelta (DIFF_CHECKSUM, [s, m2]) ?_ rfl
        rw [hd1eq]
        simp
    · refine ih (addModule lib m) ?_ m2 hm2
      intro e he
      refine hdelta e ?_
      rw [List.mem_append]
      right
      rw [hd2, List.drop_left] at he
      exact he

/-- A batch whose records all find their key occupied with a matching
checksum leaves the library unchanged. -/
theorem merge_noop_of_same_csum (B : List ModRec) (lib : Library)
    (h : ∀ m ∈ B, ∃ s, storedAt lib m.name m.modulerevision = some s ∧
      s.csum = m.csum) :
    add_modules lib B = lib := by
  induction B with
  | nil => rfl
  | cons m rest ih =>
    obtain ⟨s, hs, hcs⟩ := h m (by simp)
    have hstep : addModule lib m = lib :=
      addModule_eq_self_of_same lib m s hs (hcs.symm ▸ rfl)
    show add_modules (addModule lib m) rest = lib
    rw [hstep]
    exact ih (fun m2 hm2 => h m2 (by simp [hm2]))

/-- **C6 amended** (the counterexample forces the proviso): merging a batch
`B` a second time appends no new ConflictLog entries — indeed leaves the
whole library unchanged — provided the first merge of `B` appended no
`DIFF_CHECKSUM` entry (i.e. no record of `B` conflicts in checksum with the
occupant of its key). -/
theorem c6_idempotent_amended (lib : Library) (B : List ModRec)
    (h : ∀ e ∈ (add_modules lib B).logs.drop lib.logs.length,
      e.1 ≠ DIFF_CHECKSUM) :
    add_modules (add_modules lib B) B = add_modules lib B :=
  merge_noop_of_same_csum B (add_modules lib B) (merge_stores_same_csum B lib h)

/-- Witness for `c6_idempotent_amended` on the batch `[recA]` over the empty
registry. -/
theorem c6_idempotent_amended_witness :
    (∀ e ∈ (add_modules emptyLibrary [recA]).logs.drop emptyLibrary.logs.length,
      e.1 ≠ DIFF_CHECKSUM) ∧
      add_modules (add_modules emptyLibrary [recA]) [recA] =
        add_modules emptyLibrary [recA] :=
  ⟨by decide, c6_idempotent_amended emptyLibrary [recA] (by decide)⟩

/-!
## Round-trip lemmas for the csv codec
-/

/-- Inside quotes, the escaped text deposits exactly the original field. -/
theorem run_escapeQuotes (f : List Char) (acc : CsvAcc) :
    (escapeQuotes f).foldl csvStep (acc, CsvMode.inQuoted) =
      ({ acc with field := acc.field ++ f }, CsvMode.inQuoted) := by
  induction f generalizing acc with
  | nil => simp [escapeQuotes]
  | cons c rest ih =>
    by_cases h : c = '"'
    · subst h
      show List.foldl csvStep (acc, CsvMode.inQuoted) ('"' :: '"' :: escapeQuotes rest) = _
      simp only [List.foldl_cons]
      rw [show csvStep (acc, CsvMode.inQuoted) '"' = (acc, CsvMode.afterQuoted) from rfl]
      rw [show csvStep (acc, CsvMode.afterQuoted) '"' =
        ({ acc with field := acc.field ++ ['"'] }, CsvMode.inQuoted) from rfl]
      rw [ih]
      simp
    · rw [show escapeQuotes (c :: rest) = c :: escapeQuotes rest from by
        simp [escapeQuotes, h]]
      simp only [List.foldl_cons]
      rw [show csvStep (acc, CsvMode.inQuoted) c =
        ({ acc with field := acc.field ++ [c] }, CsvMode.inQuoted) from by
          simp [csvStep, h]]
      rw [ih]
      simp

/-- Ordinary characters deposit themselves into the current field. -/
theorem run_plain (f : List Char) (acc : CsvAcc)
    (h : ∀ c ∈ f, c ≠ ',' ∧ c ≠ '\n') :
    f.foldl csvStep (acc, CsvMode.inField) =
      ({ acc with field := acc.field ++ f }, CsvMode.inField) := by
  induction f generalizing acc with
  | nil => simp
  | cons c rest ih =>
    obtain ⟨hc1, hc2⟩ := h c (by simp)
    simp only [List.foldl_cons]
    rw [show csvStep (acc, CsvMode.inField) c =
      ({ acc with field := acc.field ++ [c] }, CsvMode.inField) from by
        simp [csvStep, hc1, hc2]]
    rw [ih _ (fun c2 hc => h c2 (by simp [hc]))]
    simp

/-- An unquoted-eligible field contains no delimiter, quote or newline. -/
theorem not_needsQuote_chars (f : List Char) (h : needsQuote f = false) :
    ∀ c ∈ f, c ≠ ',' ∧ c ≠ '"' ∧ c ≠ '\n' ∧ c ≠ '\r' := by
  intro c hc
  have hx := List.any_eq_false.mp h c hc
  simp at hx
  obtain ⟨⟨⟨h1, h2⟩, h3⟩, h4⟩ := hx
  exact ⟨h1, h2, h3, h4⟩

/-- Running the machine over one encoded field from the start of a field
deposits the field verbatim; the final mode depends only on the shape of the
encoding. -/
theorem run_encodeField (f : List Char) (rows : List (List (List Char)))
    (row : List (List Char)) :
    (encodeField f).foldl csvStep (⟨rows, row, []⟩, CsvMode.fieldStart) =
      (⟨rows, row, f⟩,
        if needsQuote f then CsvMode.afterQuoted
        else if f = [] then CsvMode.fieldStart else CsvMode.inField) := by
  by_cases hq : needsQuote f
  · simp only [encodeField, hq, if_true, List.foldl_cons]
    rw [show csvStep (⟨rows, row, []⟩, CsvMode.fieldStart) '"' =
      ((⟨rows, row, []⟩ : CsvAcc), CsvMode.inQuoted) from rfl]
    rw [List.foldl_append, run_escapeQuotes]
    simp only [List.nil_append, List.foldl_cons, List.foldl_nil]
    rfl
  · simp only [encodeField, if_neg hq]
    cases f with
    | nil => rfl
    | cons c f2 =>
      obtain ⟨hc1, hc2, hc3, -⟩ := not_needsQuote_chars _ (by simpa using hq) c (by simp)
      simp only [List.foldl_cons]
      rw [show csvStep (⟨rows, row, []⟩, CsvMode.fieldStart) c =
        ((⟨rows, row, [c]⟩ : CsvAcc), CsvMode.inField) from by
          simp [csvStep, csvStepField, hc1, hc2, hc3]]
      rw [run_plain _ _ (fun c2 hc =>
        ⟨(not_needsQuote_chars _ (by simpa using hq) c2 (by simp [hc])).1,
         (not_needsQuote_chars _ (by simpa using hq) c2 (by simp [hc])).2.2.1⟩)]
      simp

/-- One encoded field followed by a comma: the field is appended to the
current row and the machine is back at the start of a field. -/
theorem run_field_comma (f : List Char) (rest : List Char)
    (rows : List (List (List Char))) (row : List (List Char)) :
    (encodeField f ++ ',' :: rest).foldl csvStep (⟨rows, row, []⟩, CsvMode.fieldStart) =
      rest.foldl csvStep (⟨rows, row ++ [f], []⟩, CsvMode.fieldStart) := by
  rw [List.foldl_append, run_encodeField]
  by_cases hq : needsQuote f
  · simp only [hq, if_true, List.foldl_cons]
    rfl
  · by_cases hf : f = []
    · subst hf
      simp only [if_neg hq, if_pos rfl, List.foldl_cons]
      rfl
    · simp only [if_neg hq, if_neg hf, List.foldl_cons]
      rfl

/-- One encoded field followed by a newline: the current row (with the field
appended) is completed and the machine is back at the start of a line. -/
theorem run_field_nl (f : List Char) (rest : List Char)
    (rows : List (List (List Char))) (row : List (List Char)) :
    (encodeField f ++ '\n' :: rest).foldl csvStep (⟨rows, row, []⟩, CsvMode.fieldStart) =
      rest.foldl csvStep (⟨rows ++ [row ++ [f]], [], []⟩, CsvMode.lineStart) := by
  rw [List.foldl_append, run_encodeField]
  by_cases hq : needsQuote f
  · simp only [hq, if_true, List.foldl_cons]
    rfl
  · by_cases hf : f = []
    · subst hf
      simp only [if_neg hq, if_pos rfl, List.foldl_cons]
      rfl
    · simp only [if_neg hq, if_neg hf, List.foldl_cons]
      rfl

/-- The `'\n'`-terminated file text the csv reader actually sees: the
universal-newline translation of the writer's `"\r\n"`-terminated output. -/
def encodeFileLF : List (List (List Char)) → List Char
  | [] => []
  | r :: rest => encodeRowPlain r ++ '\n' :: encodeFileLF rest

/-- A non-empty encoded field starts with a character other than `'\n'`. -/
theorem encodeField_head (f : List Char) (h : f ≠ []) :
    ∃ c cs, encodeField f = c :: cs ∧ c ≠ '\n' := by
  by_cases hq : needsQuote f
  · refine ⟨'"', escapeQuotes f ++ ['"'], ?_, by decide⟩
    simp [encodeField, hq]
  · cases f with
    | nil => cases h rfl
    | cons c f2 =>
      obtain ⟨-, -, hc3, -⟩ := not_needsQuote_chars _ (by simpa using hq) c (by simp)
      exact ⟨c, f2, by simp [encodeField, if_neg hq], hc3⟩

/-- A non-blank encoded record starts with a character other than `'\n'`. -/
theorem encodeRowPlain_head (fields : List (List Char)) (h1 : fields ≠ [])
    (h2 : fields ≠ [[]]) :
    ∃ c cs, encodeRowPlain fields = c :: cs ∧ c ≠ '\n' := by
  cases fields with
  | nil => cases h1 rfl
  | cons f fs =>
    cases fs with
    | nil =>
      have hf : f ≠ [] := fun e => h2 (by rw [e])
      obtain ⟨c, cs, hc, hcn⟩ := encodeField_head f hf
      exact ⟨c, cs, by simpa [encodeRowPlain] using hc, hcn⟩
    | cons f2 fs2 =>
      by_cases hf : f = []
      · subst hf
        refine ⟨',', encodeRowPlain (f2 :: fs2), ?_, by decide⟩
        show encodeField [] ++ ',' :: encodeRowPlain (f2 :: fs2) = _
        simp [encodeField, needsQuote]
      · obtain ⟨c, cs, hc, hcn⟩ := encodeField_head f hf
        refine ⟨c, cs ++ ',' :: encodeRowPlain (f2 :: fs2), ?_, hcn⟩
        show encodeField f ++ ',' :: encodeRowPlain (f2 :: fs2) = _
        rw [hc]
        simp

/-- At the start of a line, any character other than a bare newline is
handled exactly as at the start of a field. -/
theorem foldl_lineStart_cons (c : Char) (cs : List Char) (acc : CsvAcc)
    (h : c ≠ '\n') :
    (c :: cs).foldl csvStep (acc, CsvMode.lineStart) =
      (c :: cs).foldl csvStep (acc, CsvMode.fieldStart) := by
  simp only [List.foldl_cons]
  rw [show csvStep (acc, CsvMode.lineStart) c = csvStep (acc, CsvMode.fieldStart) c from by
    simp [csvStep, h]]

/-- One encoded record plus its newline, read from the start of a field:
the pending row is completed with all the record's fields. -/
theorem run_row_nl (fields : List (List Char)) (rest : List Char)
    (rows : List (List (List Char))) (row0 : List (List Char))
    (h : fields ≠ []) :
    (encodeRowPlain fields ++ '\n' :: rest).foldl csvStep
        (⟨rows, row0, []⟩, CsvMode.fieldStart) =
      rest.foldl csvStep
        (⟨rows ++ [row0 ++ fields], [], []⟩, CsvMode.lineStart) := by
  induction fields generalizing row0 with
  | nil => cases h rfl
  | cons f fs ih =>
    cases fs with
    | nil =>
      show (encodeField f ++ '\n' :: rest).foldl csvStep _ = _
      exact run_field_nl f rest rows row0
    | cons f2 fs2 =>
      show ((encodeField f ++ ',' :: encodeRowPlain (f2 :: fs2)) ++ '\n' :: rest).foldl
          csvStep _ = _
      rw [List.append_assoc, List.cons_append, run_field_comma,
        ih (row0 ++ [f]) (by simp)]
      simp

/-- One encoded record plus its newline, read from the start of a line. -/
theorem run_row_lineStart (fields : List (List Char)) (rest : List Char)
    (rows : List (List (List Char))) (h1 : fields ≠ []) (h2 : fields ≠ [[]]) :
    (encodeRowPlain fields ++ '\n' :: rest).foldl csvStep
        (⟨rows, [], []⟩, CsvMode.lineStart) =
      rest.foldl csvStep (⟨rows ++ [fields], [], []⟩, CsvMode.lineStart) := by
  obtain ⟨c, cs, hc, hcn⟩ := encodeRowPlain_head fields h1 h2
  have hlist : encodeRowPlain fields ++ '\n' :: rest = c :: (cs ++ '\n' :: rest) := by
    rw [hc]; rfl
  rw [hlist, foldl_lineStart_cons c _ _ hcn, ← hlist,
    run_row_nl fields rest rows [] h1]
  simp

/-- Reading the whole `'\n'`-terminated file accumulates exactly the encoded
records, ending cleanly at the start of a line. -/
theorem run_fileLF (rowsData : List (List (List Char)))
    (rows0 : List (List (List Char)))
    (h : ∀ r ∈ rowsData, r ≠ [] ∧ r ≠ [[]]) :
    (encodeFileLF rowsData).foldl csvStep (⟨rows0, [], []⟩, CsvMode.lineStart) =
      (⟨rows0 ++ rowsData, [], []⟩, CsvMode.lineStart) := by
  induction rowsData generalizing rows0 with
  | nil => simp [encodeFileLF]
  | cons r rest ih =>
    show (encodeRowPlain r ++ '\n' :: encodeFileLF rest).foldl csvStep _ = _
    rw [run_row_lineStart r _ rows0 (h r (by simp)).1 (h r (by simp)).2,
      ih (rows0 ++ [r]) (fun r2 hr2 => h r2 (by simp [hr2]))]
    simp

/-- Characters of an escaped field are the field's or the quote. -/
theorem mem_escapeQuotes (f : List Char) (c : Char) (h : c ∈ escapeQuotes f) :
    c = '"' ∨ c ∈ f := by
  induction f with
  | nil => simp [escapeQuotes] at h
  | cons c2 rest ih =>
    by_cases h2 : c2 = '"'
    · subst h2
      rw [show escapeQuotes ('"' :: rest) = '"' :: '"' :: escapeQuotes rest from rfl] at h
      rcases List.mem_cons.mp h with h | h
      · exact Or.inl h
      · rcases List.mem_cons.mp h with h | h
        · exact Or.inl h
        · rcases ih h with h | h
          · exact Or.inl h
          · exact Or.inr (by simp [h])
    · rw [show escapeQuotes (c2 :: rest) = c2 :: escapeQuotes rest from by
        simp [escapeQuotes, h2]] at h
      rcases List.mem_cons.mp h with h | h
      · exact Or.inr (by simp [h])
      · rcases ih h with h | h
        · exact Or.inl h
        · exact Or.inr (by simp [h])

/-- Characters of an encoded field are the field's or the quote. -/
theorem mem_encodeField (f : List Char) (c : Char) (h : c ∈ encodeField f) :
    c = '"' ∨ c ∈ f := by
  by_cases hq : needsQuote f
  · rw [show encodeField f = '"' :: (escapeQuotes f ++ ['"']) from by
      simp [encodeField, hq]] at h
    rcases List.mem_cons.mp h with h | h
    · exact Or.inl h
    · rcases List.mem_append.mp h with h | h
      · exact mem_escapeQuotes f c h
      · exact Or.inl (by simpa using h)
  · rw [show encodeField f = f from by simp [encodeField, if_neg hq]] at h
    exact Or.inr h

/-- Characters of an encoded record are quotes, commas, or field characters. -/
theorem mem_encodeRowPlain (fields : List (List Char)) (c : Char)
    (h : c ∈ encodeRowPlain fields) :
    c = '"' ∨ c = ',' ∨ ∃ f ∈ fields, c ∈ f := by
  induction fields with
  | nil => simp [encodeRowPlain] at h
  | cons f fs ih =>
    cases fs with
    | nil =>
      rcases mem_encodeField f c (by simpa [encodeRowPlain] using h) with h | h
      · exact Or.inl h
      · exact Or.inr (Or.inr ⟨f, by simp, h⟩)
    | cons f2 fs2 =>
      rw [show encodeRowPlain (f :: f2 :: fs2) =
        encodeField f ++ ',' :: encodeRowPlain (f2 :: fs2) from rfl] at h
      rcases List.mem_append.mp h with h | h
      · rcases mem_encodeField f c h with h | h
        · exact Or.inl h
        · exact Or.inr (Or.inr ⟨f, by simp, h⟩)
      · rcases List.mem_cons.mp h with h | h
        · exact Or.inr (Or.inl h)
        · rcases ih h with h | h | ⟨f3, hf3, hc3⟩
          · exact Or.inl h
          · exact Or.inr (Or.inl h)
          · exact Or.inr (Or.inr ⟨f3, by simp [hf3], hc3⟩)

/-- An encoded record of carriage-return-free fields is carriage-return
free. -/
theorem encodeRowPlain_noCR (fields : List (List Char))
    (h : ∀ f ∈ fields, '\r' ∉ f) : '\r' ∉ encodeRowPlain fields := by
  intro hmem
  rcases mem_encodeRowPlain fields _ hmem with hc | hc | ⟨f, hf, hc⟩
  · cases hc
  · cases hc
  · exact h f hf hc

/-- Translation passes a carriage-return-free character through. -/
theorem unlTranslate_cons_ne (c : Char) (cs : List Char) (h : c ≠ '\r') :
    unlTranslate (c :: cs) = c :: unlTranslate cs := by
  cases cs with
  | nil => simp [unlTranslate, h]
  | cons c2 cs2 => simp [unlTranslate, h]

/-- Translation turns each `"\r\n"` row terminator into `"\n"` and leaves a
carriage-return-free row body intact. -/
theorem unlTranslate_append_crlf (cs rest : List Char) (h : '\r' ∉ cs) :
    unlTranslate (cs ++ '\r' :: '\n' :: rest) = cs ++ '\n' :: unlTranslate rest := by
  induction cs with
  | nil => simp [unlTranslate]
  | cons c cs2 ih =>
    have hc : c ≠ '\r' := fun e => h (by simp [e])
    rw [List.cons_append, unlTranslate_cons_ne c _ hc,
      ih (fun hm => h (by simp [hm]))]
    rfl

/-- The reader-side text of a written snapshot whose fields are
carriage-return free: every `"\r\n"` terminator collapses to `"\n"`. -/
theorem unlTranslate_encodeFile (rowsData : List (List (List Char)))
    (hcr : ∀ r ∈ rowsData, ∀ f ∈ r, '\r' ∉ f)
    (hne : ∀ r ∈ rowsData, r ≠ [[]]) :
    unlTranslate (encodeFile rowsData) = encodeFileLF rowsData := by
  induction rowsData with
  | nil => rfl
  | cons r rest ih =>
    show unlTranslate (encodeRow r ++ '\r' :: '\n' :: encodeFile rest) = _
    rw [show encodeRow r = encodeRowPlain r from by
        simp [encodeRow, hne r (by simp)],
      unlTranslate_append_crlf _ _ (encodeRowPlain_noCR r (hcr r (by simp))),
      ih (fun r2 h2 => hcr r2 (by simp [h2])) (fun r2 h2 => hne r2 (by simp [h2]))]
    rfl

/-- Parsing the translated snapshot text recovers the header row and every
record row verbatim, provided no field contains a carriage return. -/
theorem parse_writeSnapshot (mods : List ModRec)
    (h : ∀ m ∈ mods, ∀ s ∈ get_row m, '\r' ∉ s.data) :
    parseCsv (unlTranslate (writeSnapshot mods)) =
      (csv_fieldnames :: mods.map get_row).map (List.map String.data) := by
  have hlen : ∀ r ∈ (csv_fieldnames :: mods.map get_row).map (List.map String.data),
      r.length = 8 := by
    intro r hr
    rcases List.mem_map.mp hr with ⟨row, hrow, rfl⟩
    rcases List.mem_cons.mp hrow with hrow | hrow
    · subst hrow; rfl
    · rcases List.mem_map.mp hrow with ⟨m, hm, rfl⟩
      simp [get_row]
  have hshape : ∀ r ∈ (csv_fieldnames :: mods.map get_row).map (List.map String.data),
      r ≠ [] ∧ r ≠ [[]] := by
    intro r hr
    have hl := hlen r hr
    constructor
    · intro e; rw [e] at hl; simp at hl
    · intro e; rw [e] at hl; simp at hl
  have hcr : ∀ r ∈ (csv_fieldnames :: mods.map get_row).map (List.map String.data),
      ∀ f ∈ r, '\r' ∉ f := by
    intro r hr f hf
    rcases List.mem_map.mp hr with ⟨row, hrow, rfl⟩
    rcases List.mem_map.mp hf with ⟨s, hs, rfl⟩
    rcases List.mem_cons.mp hrow with hrow | hrow
    · subst hrow
      have hhdr : ∀ s2 ∈ csv_fieldnames, '\r' ∉ s2.data := by decide
      exact hhdr s hs
    · rcases List.mem_map.mp hrow with ⟨m, hm, rfl⟩
      exact h m hm s hs
  unfold writeSnapshot parseCsv
  rw [unlTranslate_encodeFile _ hcr (fun r hr => (hshape r hr).2),
    run_fileLF _ [] hshape]
  simp [csvFinish]

/-- Rebuilding `String` fields from parsed characters is the identity. -/
theorem map_asString_data (row : List String) :
    List.map List.asString (List.map String.data row) = row := by
  induction row with
  | nil => rfl
  | cons s rest ih =>
    show s.data.asString :: List.map List.asString (List.map String.data rest) = s :: rest
    rw [show s.data.asString = s from rfl, ih]

/-- The csv rows read back from a written snapshot, provided no field
contains a carriage return. -/
theorem readRows_writeSnapshot (mods : List ModRec)
    (h : ∀ m ∈ mods, ∀ s ∈ get_row m, '\r' ∉ s.data) :
    readRows (writeSnapshot mods) = csv_fieldnames :: mods.map get_row := by
  unfold readRows
  rw [parse_writeSnapshot mods h, List.map_map,
    show (List.map List.asString ∘ List.map String.data) = id from
      funext (fun row => map_asString_data row),
    List.map_id]

/-- The `modinfo` mappings loaded back from a written snapshot. -/
theorem load_release_writeSnapshot (mods : List ModRec)
    (h : ∀ m ∈ mods, ∀ s ∈ get_row m, '\r' ∉ s.data) :
    load_release (writeSnapshot mods) =
      mods.map (fun m => csv_fieldnames.zip (get_row m)) := by
  unfold load_release
  rw [readRows_writeSnapshot mods h]
  simp [List.map_map]

/-- Reading a record's own row through the `Module` property accessors gives
back the record, field for field. -/
theorem toModRec_get_row (m : ModRec) :
    toModRec (csv_fieldnames.zip (get_row m)) = some m := rfl

/-- A record whose checksum contains a carriage return. -/
def recCR : ModRec :=
  { name := "b", rev := "2020-01-01", rel := "R1", csum := "c\rd",
    ns := "urn:b", pfx := "b", kind := "module", fname := "b.yang" }

/-- `recCR` as it comes back from a snapshot: the carriage return inside the
checksum has been rewritten to a line feed by the reader's universal-newline
translation. -/
def recCRread : ModRec :=
  { name := "b", rev := "2020-01-01", rel := "R1", csum := "c\nd",
    ns := "urn:b", pfx := "b", kind := "module", fname := "b.yang" }

/-- **C7** counterexample.  Writing the single record `recCR` (checksum
`"c\rd"`) and reloading the snapshot does not return the record verbatim:
the reader opens the file without `newline=''`, so the embedded `"\r"` comes
back as `"\n"`. -/
theorem c7_counterexample :
    (load_release (writeSnapshot [recCR])).map toModRec = [some recCRread] ∧
      recCRread ≠ recCR := by decide

/-- **C7 amended** (the counterexample forces the carriage-return proviso):
for every batch of `N` records none of whose field values contains a
carriage return, writing a release snapshot and reloading it yields the same
`N` records, every one equal to its original in all eight fields. -/
theorem c7_snapshot_roundtrip_amended (mods : List ModRec)
    (h : ∀ m ∈ mods, ∀ s ∈ get_row m, '\r' ∉ s.data) :
    (load_release (writeSnapshot mods)).map toModRec = mods.map some ∧
      (load_release (writeSnapshot mods)).length = mods.length := by
  have hload := load_release_writeSnapshot mods h
  constructor
  · rw [hload, List.map_map,
      show (toModRec ∘ fun m => csv_fieldnames.zip (get_row m)) = some from
        funext (fun m => toModRec_get_row m)]
  · rw [hload]
    simp

/-- Witness for `c7_snapshot_roundtrip_amended` on the batch
`[recA, recB]`. -/
theorem c7_snapshot_roundtrip_amended_witness :
    (∀ m ∈ [recA, recB], ∀ s ∈ get_row m, '\r' ∉ s.data) ∧
      (load_release (writeSnapshot [recA, recB])).map toModRec =
        [recA, recB].map some :=
  ⟨by decide, (c7_snapshot_roundtrip_amended [recA, recB] (by decide)).1⟩

/-- **C8** (confirmed).  `write_out_new_results` is a total function of the
file-system state (nothing is ever raised): with no library directory it
does nothing; if a snapshot file for the release already exists, the file
system — in particular the existing file — is left unchanged; with an empty
record set, the speculatively created file is removed again, so no snapshot
file exists for the release afterwards; only a non-empty record set for a
not-yet-persisted release leaves a new snapshot file, holding the header row
and the record rows. -/
theorem c8_write_behavior (fs : List (String × List Char))
    (library_dir : Option String) (release_name : String)
    (records : List ModRec) :
    (library_dir = none →
      write_out_new_results fs library_dir release_name records = fs) ∧
    (∀ outfile, get_output_libpath library_dir release_name = some outfile →
      ((alookup fs outfile).isSome →
        write_out_new_results fs library_dir release_name records = fs) ∧
      (alookup fs outfile = none → records = [] →
        alookup (write_out_new_results fs library_dir release_name records)
          outfile = none) ∧
      (alookup fs outfile = none → records ≠ [] →
        alookup (write_out_new_results fs library_dir release_name records)
          outfile = some (writeSnapshot records))) := by
  constructor
  · intro hdir
    subst hdir
    rfl
  · intro outfile hout
    refine ⟨?_, ?_, ?_⟩
    · intro hsome
      simp [write_out_new_results, hout, hsome]
    · intro hnone hrec
      subst hrec
      simp only [write_out_new_results, hout, hnone, Option.isSome_none,
        Bool.false_eq_true, if_false, List.length_nil, if_pos rfl]
      exact alookup_adelete_self _ _
    · intro hnone hrec
      have hlen : ¬ records.length = 0 := fun e => hrec (List.length_eq_zero.mp e)
      simp only [write_out_new_results, hout, hnone, Option.isSome_none,
        Bool.false_eq_true, if_false, if_neg hlen]
      exact alookup_aset_self _ _ _

/-- The library directory used by the `c8` witness. -/
def libDirStr : String := "ydir"

/-- The release name used by the `c8` witness. -/
def relName1 : String := "R1"

/-- The snapshot path `ydir/REVINFO-R1.csv`. -/
def outPath1 : String := libDirStr ++ "/" ++ db_prefix ++ relName1 ++ db_suffix

/-- Witness for `c8_write_behavior`: on an empty file system, an empty batch
leaves no file behind and a non-empty batch creates the snapshot file. -/
theorem c8_write_behavior_witness :
    get_output_libpath (some libDirStr) relName1 = some outPath1 ∧
      alookup ([] : List (String × List Char)) outPath1 = none ∧
      alookup (write_out_new_results [] (some libDirStr) relName1 [])
        outPath1 = none ∧
      alookup (write_out_new_results [] (some libDirStr) relName1 [recA])
        outPath1 = some (writeSnapshot [recA]) :=
  ⟨by decide, by decide,
   ((c8_write_behavior [] (some libDirStr) relName1 []).2 outPath1
      (by decide)).2.1 (by decide) rfl,
   ((c8_write_behavior [] (some libDirStr) relName1 [recA]).2 outPath1
      (by decide)).2.2 (by decide) (by decide)⟩
